import Mathlib

/-!
Shallow embedding of the reference-resolution pipeline of `ragbase/scrapper.py`
(functions `clean_search_query`, `fetch_top_wikipedia_results`,
`extract_manual_content`, `manual_extract_from_url`, `get_fallback_content`,
`extract_disambiguation_content`, `create_simple_disambiguation_content`).

External collaborators (the HTTP client, the HTML parser output, and the
wikipedia search/page/summary API) are modelled as oracles: a `World` of pure
functions indexed by a call counter, so that every sequence of responses,
including a different response on every call, is a possible behaviour.
Python exceptions raised by a collaborator are modelled as `Except.error`
values; `try`/`except` blocks of the source are modelled by matching on those
values exactly where the source has a handler.
-/

namespace Ragbase

/-! ## Python string primitives -/

/-- Characters stripped by Python `str.strip()` (the common whitespace set). -/
def pyIsSpace (c : Char) : Bool :=
  c = ' ' || c = '\t' || c = '\n' || c = '\x0d' || c = '\x0b' || c = '\x0c'

/-- Python `str.lower()` (char-wise mapping). -/
def pyLower (s : String) : String :=
  ⟨s.data.map Char.toLower⟩

/-- Python `str.strip()`: drop leading and trailing whitespace. -/
def pyStrip (s : String) : String :=
  ⟨((s.data.dropWhile pyIsSpace).reverse.dropWhile pyIsSpace).reverse⟩

/-- Line-boundary characters of Python `str.splitlines()`. -/
def isLineBreak (c : Char) : Bool :=
  c = '\n' || c = '\x0d' || c = '\x0b' || c = '\x0c' ||
  c = '\x1c' || c = '\x1d' || c = '\x1e' || c = '\x85' ||
  c = '\u2028' || c = '\u2029'

/-- Split a character list at every character satisfying `p` (the separators
are dropped).  Compared with Python `splitlines`, a `"\x0d\n"` pair yields one
extra empty segment and a trailing break yields one trailing empty segment;
both callers in the source discard blank segments, so this is extensionally
faithful there, and for `split("\n")` it agrees exactly. -/
def splitChars (p : Char → Bool) : List Char → List (List Char)
  | [] => [[]]
  | c :: cs =>
    if p c then [] :: splitChars p cs
    else
      match splitChars p cs with
      | [] => [[c]]
      | s :: ss => (c :: s) :: ss

/-- The stripped non-blank lines of a text, split at `sep`-characters. -/
def nonBlankLines (p : Char → Bool) (s : String) : List String :=
  ((splitChars p s.data).map (fun l => pyStrip ⟨l⟩)).filter (fun l => l ≠ "")

/-- Does `pat` occur at the head of `l`? -/
def charsStartWith : List Char → List Char → Bool
  | [], _ => true
  | _ :: _, [] => false
  | p :: ps, c :: cs => p = c && charsStartWith ps cs

/-- Python `pat in s` (substring test), on character lists. -/
def charsContain (pat : List Char) : List Char → Bool
  | [] => charsStartWith pat []
  | c :: cs => charsStartWith pat (c :: cs) || charsContain pat cs

/-- Python `pat in s` (substring test). -/
def strContains (s pat : String) : Bool :=
  charsContain pat.data s.data

/-- Python `s.startswith(pat)`. -/
def strStartsWith (s pat : String) : Bool :=
  charsStartWith pat.data s.data

/-- Python `s.endswith(pat)`. -/
def strEndsWith (s pat : String) : Bool :=
  charsStartWith pat.data.reverse s.data.reverse

/-- Python `s.replace(" ", "_")`. -/
def underscoreSpaces (s : String) : String :=
  ⟨s.data.map (fun c => if c = ' ' then '_' else c)⟩

/-- UTF-8 encoding of one character, as byte values. -/
def utf8Encode (c : Char) : List Nat :=
  let n := c.toNat
  if n < 0x80 then [n]
  else if n < 0x800 then [0xC0 + n / 64, 0x80 + n % 64]
  else if n < 0x10000 then [0xE0 + n / 4096, 0x80 + n / 64 % 64, 0x80 + n % 64]
  else [0xF0 + n / 262144, 0x80 + n / 4096 % 64, 0x80 + n / 64 % 64, 0x80 + n % 64]

/-- Upper-case hexadecimal digit. -/
def hexDigit (n : Nat) : Char :=
  if n < 10 then Char.ofNat (48 + n) else Char.ofNat (55 + n)

/-- Bytes left unescaped by `urllib.parse.quote` with its default `safe="/"`:
unreserved characters and the slash. -/
def quoteSafeByte (b : Nat) : Bool :=
  (0x41 ≤ b && b ≤ 0x5A) || (0x61 ≤ b && b ≤ 0x7A) || (0x30 ≤ b && b ≤ 0x39) ||
  b = 0x2D || b = 0x2E || b = 0x5F || b = 0x7E || b = 0x2F

/-- `urllib.parse.quote(s)`: percent-encode every unsafe UTF-8 byte. -/
def urlQuote (s : String) : String :=
  ⟨(s.data.flatMap utf8Encode).flatMap fun b =>
    if quoteSafeByte b then [Char.ofNat b]
    else ['%', hexDigit (b / 16), hexDigit (b % 16)]⟩

/-- Python `"\n".join(lines)`. -/
def joinLines : List String → String
  | [] => ""
  | [a] => a
  | a :: b :: rest => a ++ "\n" ++ joinLines (b :: rest)

/-! ## `clean_search_query` (scrapper.py lines 28-41) -/

/-- The literal alternatives of the preamble regex at scrapper.py line 32
(expanding the optional groups of the third alternative), lower-cased for the
case-insensitive match. -/
def preambleAlternatives : List String :=
  ["sure, here is the search phrase:",
   "search phrase:",
   "here\x27s the search phrase:",
   "here\x27s the phrase:",
   "here is the search phrase:",
   "here is the phrase:"]

/-- The first preamble regex substitution of `clean_search_query`: the pattern
is anchored at the start of the string (no MULTILINE flag), matched
case-insensitively, and the match together with the following `\s*` run is
removed.  At most one alternative can match at position 0, so alternative
order is immaterial. -/
def stripPreamble (s : String) : String :=
  match preambleAlternatives.find? (fun p => strStartsWith (pyLower s) p) with
  | some p => ⟨(s.data.drop p.length).dropWhile pyIsSpace⟩
  | none => s

/-- The second substitution `re.sub(r"[*_`]+", "", text)`: delete every
markdown emphasis character. -/
def removeEmphasis (s : String) : String :=
  ⟨s.data.filter (fun c => !(c = '*' || c = '_' || c = '\x60'))⟩

/-- `clean_search_query` (scrapper.py lines 28-41). -/
def clean_search_query (raw_text : String) : String :=
  if raw_text = "" then ""
  else
    let text := removeEmphasis (stripPreamble raw_text)
    let lines := nonBlankLines isLineBreak text
    match lines with
    | [] => ""
    | l :: _ => pyStrip l

/-! ## Data model: parsed markup, wikipedia API values, result documents -/

/-- One markup element as the source observes it: its tag name, its visible
text (`get_text()`), and its link target (`get("href", "")`). -/
structure El where
  name : String
  text : String
  href : String
  deriving Repr, DecidableEq

/-- A parsed page (`BeautifulSoup(r.text, "html.parser")`), recorded through
the exact observations the source makes of it:
`disambigTableId` is the truthiness of `soup.find("table", id="disambigbox")`,
`disambigTableClass` that of the `find` on the disambiguation ambox class,
`text` is `soup.get_text()`, `contentDiv` is the element list (descendants in
document order) of `soup.find("div", class_="mw-parser-output")` when that div
exists, and `sel1`-`sel4` are the element lists returned by the four CSS
selectors of `extract_disambiguation_content`, in their source order. -/
structure Soup where
  disambigTableId : Bool
  disambigTableClass : Bool
  text : String
  contentDiv : Option (List El)
  sel1 : List El
  sel2 : List El
  sel3 : List El
  sel4 : List El
  deriving Repr, DecidableEq

/-- A `wikipedia.page(...)` result: its canonical title and URL. -/
structure Page where
  title : String
  url : String
  deriving Repr, DecidableEq

/-- Exceptions the wikipedia API can raise: `DisambiguationError` carrying its
option list, `PageError`, or any other exception. -/
inductive WikiErr where
  | disamb (options : List String)
  | page
  | other
  deriving Repr, DecidableEq

/-- The dictionaries appended to `results`: a reference document. -/
structure RefDoc where
  title : String
  content : String
  source_url : String
  is_disambiguation : Bool
  deriving Repr, DecidableEq

/-- The external collaborators, as pure oracles.  The first argument of each
is the global call counter: the n-th external call of a run consults the
oracle at index n, so any sequence of responses (including responses that
differ between two calls with the same remaining arguments) is expressible.
`httpGet` models `requests.get(url, timeout=10, headers=...)` returning a
status code and parsed body, or raising; `wikiPage` models
`wikipedia.page(title, auto_suggest=b)`; `wikiSummary` models
`wikipedia.summary(title, sentences=k)`; `wikiSearch` models
`wikipedia.search(query, results=k)`. -/
structure World where
  httpGet : Nat → String → Except Unit (Nat × Soup)
  wikiPage : Nat → String → Bool → Except WikiErr Page
  wikiSummary : Nat → String → Nat → Except WikiErr String
  wikiSearch : Nat → String → Nat → Except Unit (List String)

/-! ## `extract_manual_content` (scrapper.py lines 230-260) -/

/-- Is the tag one of those requested by
`content_div.find_all(["p", "h1", "h2", "h3"], ...)`? -/
def isContentTag (e : El) : Bool :=
  e.name = "p" || e.name = "h1" || e.name = "h2" || e.name = "h3"

/-- BeautifulSoup `find_all` with `limit=k`: a limit of `0` is falsy and means
no limit. -/
def takeLimit (k : Nat) (l : List El) : List El :=
  if k = 0 then l else l.take k

/-- The accumulation loop of `extract_manual_content` (lines 237-248): long
paragraphs are kept, non-blank headings are kept wrapped in blank lines, and
the loop breaks once `sentences` lines are collected. -/
def collectLines (sentences : Nat) : List El → List String → List String
  | [], acc => acc
  | e :: rest, acc =>
    let acc' :=
      if e.name = "p" then
        let t := pyStrip e.text
        if t ≠ "" && decide (50 < t.length) then acc ++ [t] else acc
      else if strStartsWith e.name "h" then
        let t := pyStrip e.text
        if t ≠ "" then acc ++ ["\n" ++ t ++ "\n"] else acc
      else acc
    if sentences ≤ acc'.length then acc' else collectLines sentences rest acc'

/-- `extract_manual_content` (scrapper.py lines 230-260). -/
def extract_manual_content (soup : Soup) (sentences : Nat) : String :=
  let content_lines :=
    match soup.contentDiv with
    | some div =>
      collectLines sentences (takeLimit (sentences * 2) (div.filter isContentTag)) []
    | none => []
  let content_lines :=
    if content_lines.isEmpty then
      match soup.contentDiv with
      | some div =>
        match div.find? (fun e => e.name = "p") with
        | some fp => [pyStrip fp.text]
        | none => []
      | none => []
    else content_lines
  let content_lines :=
    if content_lines.isEmpty then
      (nonBlankLines (fun c => c = '\n') soup.text).take sentences
    else content_lines
  joinLines (content_lines.take sentences)

/-! ## `extract_disambiguation_content` (scrapper.py lines 304-360) -/

/-- The candidate filter of lines 323-327: non-trivial visible text that does
not look like a disambiguation label, behind an internal `/wiki/` link that is
not itself a disambiguation page. -/
def optionAccept (e : El) : Bool :=
  let t := pyStrip e.text
  t ≠ "" && decide (2 < t.length) &&
  !(strEndsWith (pyLower t) "(disambiguation)") &&
  !(strContains (pyLower t) "disambiguation") &&
  strStartsWith e.href "/wiki/" &&
  !(strContains (pyLower e.href) "disambiguation")

/-- The inner element loop of lines 318-331 for one selector: accepted texts
are appended in order, and the loop breaks once `cap` (`n * 2`) options are
collected. -/
def collectOptions (cap : Nat) : List El → List String → List String
  | [], acc => acc
  | e :: rest, acc =>
    if optionAccept e then
      let acc' := acc ++ [pyStrip e.text]
      if cap ≤ acc'.length then acc' else collectOptions cap rest acc'
    else collectOptions cap rest acc

/-- The selector loop of lines 316-333: the first selector whose elements
yield any option wins; selectors are never merged. -/
def gatherOptions (soup : Soup) (cap : Nat) : List String :=
  let o1 := collectOptions cap soup.sel1 []
  if o1 ≠ [] then o1 else
  let o2 := collectOptions cap soup.sel2 []
  if o2 ≠ [] then o2 else
  let o3 := collectOptions cap soup.sel3 []
  if o3 ≠ [] then o3 else
  collectOptions cap soup.sel4 []

/-- The deduplication loop of lines 335-340: an option is kept when it was not
seen before and fewer than `n` options are kept so far. -/
def dedupCap (n : Nat) : List String → List String → List String
  | [], acc => acc
  | o :: rest, acc =>
    if !acc.contains o && decide (acc.length < n) then dedupCap n rest (acc ++ [o])
    else dedupCap n rest acc

/-- The trailing prompt line of both disambiguation content builders. -/
def disambPrompt : String := "Please specify your query for more precise results."

/-- The header line `"..." may refer to:` of both disambiguation content
builders. -/
def mayReferHeader (query : String) : String :=
  "\x27" ++ query ++ "\x27 may refer to:"

/-- `extract_disambiguation_content` (scrapper.py lines 304-360). -/
def extract_disambiguation_content (soup : Soup) (query : String) (n : Nat) : String :=
  let options := gatherOptions soup (n * 2)
  let unique_options := dedupCap n options []
  let content_lines :=
    if unique_options ≠ [] then
      mayReferHeader query :: unique_options.map (fun o => "• " ++ o) ++ ["", disambPrompt]
    else
      match soup.contentDiv with
      | some div =>
        match div.find? (fun e => e.name = "p") with
        | some fp =>
          let t : String := ⟨fp.text.data.take 500⟩
          [if decide (500 < fp.text.length) then t ++ "..." else t]
        | none => []
      | none =>
        ["This is a disambiguation page listing articles associated with the same title."]
  joinLines content_lines

/-- `create_simple_disambiguation_content` (scrapper.py lines 362-371). -/
def create_simple_disambiguation_content (query : String) (options : List String) : String :=
  joinLines
    (mayReferHeader query :: (options.take 8).map (fun o => "• " ++ o) ++ ["", disambPrompt])

/-! ## `get_fallback_content` and `manual_extract_from_url` (lines 262-302) -/

/-- The synthetic placeholder message of `get_fallback_content`, byte for byte
as the f-string of lines 283-295 (including its trailing spaces). -/
def fallback_text (query : String) : String :=
  "Wikipedia content for \x27" ++ query ++
  "\x27 is currently unavailable. \n\nThis may be due to:\n" ++
  "• Network connectivity issues\n• Wikipedia API limitations  \n" ++
  "• The page not existing\n\nPlease try:\n1. Checking your internet connection\n" ++
  "2. Using a different search term\n3. Trying again later\n\n" ++
  "In the meantime, you can visit Wikipedia directly: https://en.wikipedia.org/wiki/" ++
  underscoreSpaces query

/-- `get_fallback_content` (scrapper.py lines 282-302).  Note that its URL
only replaces spaces by underscores; unlike the direct-page address it applies
no percent-encoding. -/
def get_fallback_content (query : String) : List RefDoc :=
  [⟨query, fallback_text query,
    "https://en.wikipedia.org/wiki/" ++ underscoreSpaces query, false⟩]

/-- `manual_extract_from_url` (scrapper.py lines 262-280), at call counter
`c`.  A raised request or a non-200 status yields `none`. -/
def manual_extract_from_url (w : World) (c : Nat) (url query : String) (sentences : Nat) :
    Option (List RefDoc) :=
  match w.httpGet c url with
  | .error _ => none
  | .ok (status, soup) =>
    if status = 200 then
      some [⟨query, extract_manual_content soup sentences, url, false⟩]
    else none

/-! ## `fetch_top_wikipedia_results` (scrapper.py lines 115-228) -/

/-- The input validation of lines 117-121: an empty/None-like query is
replaced by the fixed default topic, then stripped. -/
def effectiveQuery (query : String) : String :=
  pyStrip (if ["none", "null", ""].contains (pyLower (pyStrip query)) then "artillery" else query)

/-- The direct-page address of lines 126-127: underscore-substitution then
percent-encoding. -/
def directUrl (cleaned_query : String) : String :=
  "https://en.wikipedia.org/wiki/" ++ urlQuote (underscoreSpaces cleaned_query)

/-- The disambiguation heuristic of lines 140-143 (truthy `or` chain). -/
def detectDisambig (soup : Soup) : Bool :=
  soup.disambigTableId || soup.disambigTableClass ||
  strContains (pyLower soup.text) "disambiguation" ||
  strContains soup.text "may refer to:"

/-- One search-result disambiguation document (lines 208-216): built from the
exception options capped at 8, with an un-encoded underscore URL. -/
def searchDisambDoc (cleaned_query res : String) (options : List String) : RefDoc :=
  ⟨res ++ " (Disambiguation)",
   create_simple_disambiguation_content cleaned_query (options.take 8),
   "https://en.wikipedia.org/wiki/" ++ underscoreSpaces res, true⟩

/-- The candidate loop of lines 197-219 over the first `n` valid search
results, starting at call counter `c`.  `DisambiguationError` from the page or
summary call appends a disambiguation document; every other exception skips
the candidate. -/
def searchLoop (w : World) (cleaned_query : String) (sentences : Nat) :
    Nat → List String → List RefDoc → List RefDoc
  | _, [], acc => acc
  | c, res :: rest, acc =>
    match w.wikiPage c res false with
    | .ok page =>
      match w.wikiSummary (c + 1) page.title sentences with
      | .ok summary =>
        searchLoop w cleaned_query sentences (c + 2) rest
          (acc ++ [⟨page.title, summary, page.url, false⟩])
      | .error (.disamb options) =>
        searchLoop w cleaned_query sentences (c + 2) rest
          (acc ++ [searchDisambDoc cleaned_query res options])
      | .error _ => searchLoop w cleaned_query sentences (c + 2) rest acc
    | .error (.disamb options) =>
      searchLoop w cleaned_query sentences (c + 1) rest
        (acc ++ [searchDisambDoc cleaned_query res options])
    | .error _ => searchLoop w cleaned_query sentences (c + 1) rest acc

/-- The search fallback of lines 183-228, entered at call counter `c`: a
search-API exception falls through to `get_fallback_content`; zero search
results trigger one manual extraction pass before the fallback; otherwise the
candidate loop runs on the first `n` non-"(disambiguation)" titles. -/
def searchPhase (w : World) (c : Nat) (cleaned_query direct_url : String)
    (n sentences : Nat) : Except Unit (List RefDoc) :=
  match w.wikiSearch c cleaned_query (n * 2) with
  | .error _ => .ok (get_fallback_content cleaned_query)
  | .ok search_results =>
    if search_results.isEmpty then
      match manual_extract_from_url w (c + 1) direct_url cleaned_query sentences with
      | some docs => .ok docs
      | none => .ok (get_fallback_content cleaned_query)
    else
      let valid_results :=
        search_results.filter (fun res => !(strContains (pyLower res) "(disambiguation)"))
      .ok (searchLoop w cleaned_query sentences (c + 1) (valid_results.take n) [])

/-- The body of `fetch_top_wikipedia_results` after input validation, on the
cleaned query (lines 122-228).  Call counters: the direct GET is call 0; on
its success the direct `wikipedia.page` is call 1 and `wikipedia.summary`
call 2; the search phase starts at the next unused counter of its path. -/
def fetchWithCleaned (w : World) (cleaned_query : String) (n sentences : Nat) :
    Except Unit (List RefDoc) :=
  let safe_title := underscoreSpaces cleaned_query
  let direct_url := directUrl cleaned_query
  match w.httpGet 0 direct_url with
  | .error _ => searchPhase w 1 cleaned_query direct_url n sentences
  | .ok (status, soup) =>
    if status = 200 then
      if detectDisambig soup then
        .ok [⟨cleaned_query ++ " (Disambiguation)",
              extract_disambiguation_content soup cleaned_query n, direct_url, true⟩]
      else
        match w.wikiPage 1 safe_title true with
        | .ok page =>
          match w.wikiSummary 2 page.title sentences with
          | .ok summary => .ok [⟨page.title, summary, page.url, false⟩]
          | .error (.disamb _) =>
            .ok [⟨cleaned_query, extract_manual_content soup sentences, direct_url, false⟩]
          | .error .page =>
            .ok [⟨cleaned_query, extract_manual_content soup sentences, direct_url, false⟩]
          | .error .other => searchPhase w 3 cleaned_query direct_url n sentences
        | .error (.disamb _) =>
          .ok [⟨cleaned_query, extract_manual_content soup sentences, direct_url, false⟩]
        | .error .page =>
          .ok [⟨cleaned_query, extract_manual_content soup sentences, direct_url, false⟩]
        | .error .other => searchPhase w 2 cleaned_query direct_url n sentences
    else searchPhase w 1 cleaned_query direct_url n sentences

/-- `fetch_top_wikipedia_results` (scrapper.py lines 115-228).  The result is
`Except Unit (List RefDoc)`: an `.error` value would model an exception
escaping to the caller. -/
def fetch_top_wikipedia_results (w : World) (query : String) (n sentences : Nat) :
    Except Unit (List RefDoc) :=
  fetchWithCleaned w (effectiveQuery query) n sentences

/-! ## Derived specification notions -/

/-- Deduplication keeping the first occurrence of each value, in order; the
second argument is the set of values already seen. -/
def firstSeen : List String → List String → List String
  | [], _ => []
  | o :: rest, seen =>
    if seen.contains o then firstSeen rest seen else o :: firstSeen rest (o :: seen)

/-- The deduplicated, capped option list computed inside
`extract_disambiguation_content`. -/
def uniqueOptions (soup : Soup) (n : Nat) : List String :=
  dedupCap n (gatherOptions soup (n * 2)) []

/-- Specification notion for "a well-formed absolute URL" (Section 3 of the
spec): a URL carrying an explicit http or https scheme. -/
def isAbsoluteUrl (s : String) : Bool :=
  strStartsWith s "https://" || strStartsWith s "http://"

/-! ## Concrete fixtures used by witnesses and counterexamples -/

/-- A world in which every external call raises. -/
def worldAllFail : World :=
  ⟨fun _ _ => .error (), fun _ _ _ => .error .other,
   fun _ _ _ => .error .other, fun _ _ _ => .error ()⟩

/-- A syntactically different world with the same responses as
`worldAllFail`. -/
def worldAllFailTwin : World :=
  ⟨fun _ _ => id (.error ()), fun _ _ _ => id (.error .other),
   fun _ _ _ => id (.error .other), fun _ _ _ => id (.error ())⟩

/-- A world in which the direct fetch raises and the search API returns a
single candidate whose title is filtered out as a "(disambiguation)" title. -/
def worldFilteredSearch : World :=
  ⟨fun _ _ => .error (), fun _ _ _ => .error .other,
   fun _ _ _ => .error .other, fun _ _ _ => .ok ["x (disambiguation)"]⟩

/-- A parsed disambiguation page with two candidate links. -/
def soupCatDisamb : Soup :=
  ⟨false, false, "Cat may refer to:", none,
   [⟨"a", "Cat (animal)", "/wiki/Cat_(animal)"⟩,
    ⟨"a", "Cat (album)", "/wiki/Cat_(album)"⟩], [], [], []⟩

/-- A world in which the direct fetch always returns the disambiguation page
`soupCatDisamb` with status 200 and all other calls raise. -/
def worldCatDisamb : World :=
  ⟨fun _ _ => .ok (200, soupCatDisamb), fun _ _ _ => .error .other,
   fun _ _ _ => .error .other, fun _ _ _ => .error ()⟩

/-- A structurally empty parsed page: no disambiguation signals, empty
visible text, no content container. -/
def soupEmptyPage : Soup :=
  ⟨false, false, "", none, [], [], [], []⟩

/-- A world in which the direct fetch returns the structurally empty page
with status 200 and the page API raises `PageError`, driving
`fetch_top_wikipedia_results` into manual extraction of an empty page. -/
def worldEmptyManual : World :=
  ⟨fun _ _ => .ok (200, soupEmptyPage), fun _ _ _ => .error .page,
   fun _ _ _ => .error .other, fun _ _ _ => .error ()⟩

/-- A content container holding a heading with non-empty text followed by one
short paragraph. -/
def soupHeadingShort : Soup :=
  ⟨false, false, "", some [⟨"h2", "History", ""⟩, ⟨"p", "ab", ""⟩], [], [], [], []⟩

/-- A content container holding only one short paragraph (no heading). -/
def soupShortPara : Soup :=
  ⟨false, false, "raw text", some [⟨"p", " short ", ""⟩], [], [], [], []⟩

/-! ## Generic instances and list lemmas -/

instance {ε α : Type} [DecidableEq ε] [DecidableEq α] : DecidableEq (Except ε α) := fun x y =>
  match x, y with
  | .ok a, .ok b =>
    if h : a = b then .isTrue (by rw [h]) else .isFalse (fun hc => h (Except.ok.inj hc))
  | .error a, .error b =>
    if h : a = b then .isTrue (by rw [h]) else .isFalse (fun hc => h (Except.error.inj hc))
  | .ok _, .error _ => .isFalse (fun hc => Except.noConfusion hc)
  | .error _, .ok _ => .isFalse (fun hc => Except.noConfusion hc)

theorem mem_splitChars {p : Char → Bool} :
    ∀ {l : List Char} {seg : List Char}, seg ∈ splitChars p l →
      ∀ c ∈ seg, c ∈ l ∧ p c = false := by
  intro l
  induction l with
  | nil =>
    intro seg hseg c hc
    simp [splitChars] at hseg
    subst hseg
    simp at hc
  | cons a t ih =>
    intro seg hseg c hc
    simp only [splitChars] at hseg
    by_cases hp : p a
    · rw [if_pos hp] at hseg
      rcases List.mem_cons.mp hseg with h | h
      · subst h; simp at hc
      · have := ih h c hc
        exact ⟨List.mem_cons_of_mem _ this.1, this.2⟩
    · rw [if_neg hp] at hseg
      rcases hrec : splitChars p t with _ | ⟨s, ss⟩
      · rw [hrec] at hseg
        rcases List.mem_cons.mp hseg with h | h
        · subst h
          rcases List.mem_singleton.mp hc with rfl
          exact ⟨List.mem_cons_self _ _, by simpa using hp⟩
        · simp at h
      · rw [hrec] at hseg
        rcases List.mem_cons.mp hseg with h | h
        · subst h
          rcases List.mem_cons.mp hc with rfl | h
          · exact ⟨List.mem_cons_self _ _, by simpa using hp⟩
          · have := ih (by rw [hrec]; exact List.mem_cons_self _ _) c h
            exact ⟨List.mem_cons_of_mem _ this.1, this.2⟩
        · have := ih (by rw [hrec]; exact List.mem_cons_of_mem _ h) c hc
          exact ⟨List.mem_cons_of_mem _ this.1, this.2⟩

theorem dropWhile_head_not {p : Char → Bool} :
    ∀ {l : List Char} {a : Char} {t : List Char}, l.dropWhile p = a :: t → p a = false := by
  intro l
  induction l with
  | nil => intro a t h; simp [List.dropWhile] at h
  | cons b r ih =>
    intro a t h
    by_cases hp : p b
    · rw [List.dropWhile_cons, if_pos hp] at h; exact ih h
    · rw [List.dropWhile_cons, if_neg hp] at h
      cases h
      simpa using hp

theorem dropWhile_getLast? {p : Char → Bool} :
    ∀ {l : List Char}, l.dropWhile p ≠ [] → (l.dropWhile p).getLast? = l.getLast? := by
  intro l
  induction l with
  | nil => intro h; simp [List.dropWhile] at h
  | cons a t ih =>
    intro h
    by_cases hp : p a
    · rw [List.dropWhile_cons, if_pos hp] at h ⊢
      have ht : t ≠ [] := by
        intro hnil; subst hnil; simp [List.dropWhile] at h
      rcases t with _ | ⟨b, r⟩
      · exact absurd rfl ht
      · rw [ih h, List.getLast?_cons_cons]
    · rw [List.dropWhile_cons, if_neg hp]

theorem mem_pyStrip {s : String} {c : Char} (h : c ∈ (pyStrip s).data) : c ∈ s.data := by
  simp only [pyStrip] at h
  rw [List.mem_reverse] at h
  have h1 := (List.dropWhile_sublist (l := (s.data.dropWhile pyIsSpace).reverse)
    (p := pyIsSpace)).subset h
  rw [List.mem_reverse] at h1
  exact (List.dropWhile_sublist (l := s.data) (p := pyIsSpace)).subset h1

theorem pyStrip_getLast? {s : String} {a : Char}
    (h : (pyStrip s).data.getLast? = some a) : pyIsSpace a = false := by
  simp only [pyStrip, List.getLast?_reverse] at h
  rcases hd : ((s.data.dropWhile pyIsSpace).reverse).dropWhile pyIsSpace with _ | ⟨b, r⟩
  · rw [hd] at h; simp at h
  · rw [hd] at h
    simp only [List.head?_cons, Option.some.injEq] at h
    subst h
    exact dropWhile_head_not hd

theorem pyStrip_head? {s : String} {a : Char}
    (h : (pyStrip s).data.head? = some a) : pyIsSpace a = false := by
  simp only [pyStrip, List.head?_reverse] at h
  have hne : ((s.data.dropWhile pyIsSpace).reverse).dropWhile pyIsSpace ≠ [] := by
    intro hnil; rw [hnil] at h; simp at h
  rw [dropWhile_getLast? hne, List.getLast?_reverse] at h
  rcases hd : s.data.dropWhile pyIsSpace with _ | ⟨b, r⟩
  · rw [hd] at h; simp at h
  · rw [hd] at h
    simp only [List.head?_cons, Option.some.injEq] at h
    subst h
    exact dropWhile_head_not hd

/-! ## Claim C4: properties of `clean_search_query` -/

/-- C4 counterexample: the preamble regex is anchored at the very start of the
raw text, so when the raw text begins with a line break the returned first
line still begins with the known preamble prefix "Search phrase:", refuting
the claim that the result never begins with a preamble prefix. -/
theorem clean_search_query_preamble_cex :
    clean_search_query "\nSearch phrase: y" = "Search phrase: y" ∧
    strStartsWith (clean_search_query "\nSearch phrase: y") "Search phrase:" = true := by
  decide

/-- C4 amended: for every raw input, `clean_search_query` returns either the
empty string or a single line, free of line-break characters, whose first and
last characters are not whitespace, and containing none of the markdown
emphasis characters star, underscore and backtick.  (The preamble-prefix
conjunct of the original claim is dropped: it fails, see the
counterexample.) -/
theorem clean_search_query_single_clean_line (raw_text : String) :
    clean_search_query raw_text = "" ∨
    ((∀ c ∈ (clean_search_query raw_text).data, isLineBreak c = false) ∧
     (∀ c ∈ (clean_search_query raw_text).data,
        c ≠ '*' ∧ c ≠ '_' ∧ c ≠ '\x60') ∧
     (∀ a, (clean_search_query raw_text).data.head? = some a → pyIsSpace a = false) ∧
     (∀ a, (clean_search_query raw_text).data.getLast? = some a → pyIsSpace a = false)) := by
  by_cases hraw : raw_text = ""
  · left; simp [clean_search_query, hraw]
  · rcases hlines : nonBlankLines isLineBreak (removeEmphasis (stripPreamble raw_text))
      with _ | ⟨l, rest⟩
    · left; simp [clean_search_query, hraw, hlines]
    · right
      have hres : clean_search_query raw_text = pyStrip l := by
        simp [clean_search_query, hraw, hlines]
      have hl : l ∈ nonBlankLines isLineBreak (removeEmphasis (stripPreamble raw_text)) := by
        rw [hlines]; exact List.mem_cons_self _ _
      simp only [nonBlankLines, List.mem_filter, List.mem_map] at hl
      obtain ⟨⟨seg, hseg, hsegl⟩, _⟩ := hl
      refine ⟨?_, ?_, ?_, ?_⟩
      · intro c hc
        rw [hres] at hc
        have hc1 : c ∈ l.data := mem_pyStrip hc
        rw [← hsegl] at hc1
        have hc2 : c ∈ seg := mem_pyStrip hc1
        exact (mem_splitChars hseg c hc2).2
      · intro c hc
        rw [hres] at hc
        have hc1 : c ∈ l.data := mem_pyStrip hc
        rw [← hsegl] at hc1
        have hc2 : c ∈ seg := mem_pyStrip hc1
        have hc3 : c ∈ (removeEmphasis (stripPreamble raw_text)).data :=
          (mem_splitChars hseg c hc2).1
        simp only [removeEmphasis, List.mem_filter] at hc3
        have := hc3.2
        simp only [Bool.not_eq_true', Bool.or_eq_false_iff, decide_eq_false_iff_not] at this
        exact ⟨this.1.1, this.1.2, this.2⟩
      · intro a ha
        rw [hres] at ha
        exact pyStrip_head? ha
      · intro a ha
        rw [hres] at ha
        exact pyStrip_getLast? ha

/-! ## First-seen deduplication: spec function and correspondence -/

theorem firstSeen_cons_mem {seen : List String} {o : String} (rest : List String)
    (h : seen.contains o = true) : firstSeen (o :: rest) seen = firstSeen rest seen := by
  have h' : o ∈ seen := by simpa using h
  simp [firstSeen, h']

theorem firstSeen_cons_new {seen : List String} {o : String} (rest : List String)
    (h : seen.contains o = false) :
    firstSeen (o :: rest) seen = o :: firstSeen rest (o :: seen) := by
  have h' : o ∉ seen := by simpa using h
  simp [firstSeen, h']

theorem dedupCap_cons_mem {n : Nat} {acc : List String} {o : String} (rest : List String)
    (h : acc.contains o = true) : dedupCap n (o :: rest) acc = dedupCap n rest acc := by
  have h' : o ∈ acc := by simpa using h
  simp [dedupCap, h']

theorem dedupCap_cons_new_lt {n : Nat} {acc : List String} {o : String} (rest : List String)
    (h : acc.contains o = false) (hl : acc.length < n) :
    dedupCap n (o :: rest) acc = dedupCap n rest (acc ++ [o]) := by
  have h' : o ∉ acc := by simpa using h
  simp [dedupCap, h', hl]

theorem dedupCap_cons_new_ge {n : Nat} {acc : List String} {o : String} (rest : List String)
    (h : acc.contains o = false) (hl : ¬ acc.length < n) :
    dedupCap n (o :: rest) acc = dedupCap n rest acc := by
  have h' : o ∉ acc := by simpa using h
  simp [dedupCap, h', hl]

theorem firstSeen_congr :
    ∀ {l s1 s2 : List String}, (∀ o, s1.contains o = s2.contains o) →
      firstSeen l s1 = firstSeen l s2 := by
  intro l
  induction l with
  | nil => intro s1 s2 _; rfl
  | cons o rest ih =>
    intro s1 s2 h
    by_cases hc : s2.contains o = true
    · rw [firstSeen_cons_mem rest ((h o).trans hc), firstSeen_cons_mem rest hc]
      exact ih h
    · have hc' : s2.contains o = false := by simpa using hc
      rw [firstSeen_cons_new rest ((h o).trans hc'), firstSeen_cons_new rest hc']
      congr 1
      refine ih ?_
      intro x
      simp only [List.contains_cons]
      rw [h x]

theorem dedupCap_eq_firstSeen {n : Nat} :
    ∀ (l acc : List String),
      dedupCap n l acc = acc ++ (firstSeen l acc).take (n - acc.length) := by
  intro l
  induction l with
  | nil => intro acc; simp [dedupCap, firstSeen]
  | cons o rest ih =>
    intro acc
    by_cases hc : acc.contains o = true
    · rw [dedupCap_cons_mem rest hc, firstSeen_cons_mem rest hc]
      exact ih acc
    · have hc' : acc.contains o = false := by simpa using hc
      rw [firstSeen_cons_new rest hc']
      by_cases hlen : acc.length < n
      · rw [dedupCap_cons_new_lt rest hc' hlen, ih (acc ++ [o])]
        have hfs : firstSeen rest (acc ++ [o]) = firstSeen rest (o :: acc) := by
          refine firstSeen_congr ?_
          intro x
          simp [Bool.or_comm]
        have hnk : n - acc.length = (n - (acc ++ [o]).length) + 1 := by
          simp only [List.length_append, List.length_cons, List.length_nil]
          omega
        rw [hfs, hnk]
        simp [List.take_succ_cons]
      · rw [dedupCap_cons_new_ge rest hc' hlen, ih acc]
        have h0 : n - acc.length = 0 := by omega
        simp [h0]

theorem firstSeen_nodup_unseen :
    ∀ (l seen : List String),
      (firstSeen l seen).Nodup ∧ ∀ o ∈ firstSeen l seen, seen.contains o = false := by
  intro l
  induction l with
  | nil => intro seen; simp [firstSeen]
  | cons o rest ih =>
    intro seen
    by_cases hc : seen.contains o = true
    · rw [firstSeen_cons_mem rest hc]; exact ih seen
    · have hc' : seen.contains o = false := by simpa using hc
      rw [firstSeen_cons_new rest hc']
      obtain ⟨hnd, huns⟩ := ih (o :: seen)
      constructor
      · refine List.nodup_cons.mpr ⟨?_, hnd⟩
        intro hmem
        have := huns o hmem
        simp [List.contains_cons] at this
      · intro x hx
        rcases List.mem_cons.mp hx with rfl | hx'
        · exact hc'
        · have := huns x hx'
          simp only [List.contains_cons, Bool.or_eq_false_iff] at this
          exact this.2

theorem firstSeen_sublist :
    ∀ (l seen : List String), List.Sublist (firstSeen l seen) l := by
  intro l
  induction l with
  | nil => intro seen; simp [firstSeen]
  | cons o rest ih =>
    intro seen
    by_cases hc : seen.contains o = true
    · rw [firstSeen_cons_mem rest hc]; exact (ih seen).cons o
    · have hc' : seen.contains o = false := by simpa using hc
      rw [firstSeen_cons_new rest hc']
      exact (ih (o :: seen)).cons₂ o

theorem uniqueOptions_eq_take (soup : Soup) (n : Nat) :
    uniqueOptions soup n = (firstSeen (gatherOptions soup (n * 2)) []).take n := by
  unfold uniqueOptions
  rw [dedupCap_eq_firstSeen]
  simp

theorem uniqueOptions_length_le (soup : Soup) (n : Nat) :
    (uniqueOptions soup n).length ≤ n := by
  rw [uniqueOptions_eq_take]
  exact List.length_take_le n _

theorem uniqueOptions_nodup (soup : Soup) (n : Nat) : (uniqueOptions soup n).Nodup := by
  rw [uniqueOptions_eq_take]
  exact ((firstSeen_nodup_unseen _ _).1).sublist (List.take_sublist n _)

theorem uniqueOptions_sublist (soup : Soup) (n : Nat) :
    List.Sublist (uniqueOptions soup n) (gatherOptions soup (n * 2)) := by
  rw [uniqueOptions_eq_take]
  exact (List.take_sublist n _).trans (firstSeen_sublist _ _)

theorem collectOptions_mem {cap : Nat} :
    ∀ {els : List El} {acc : List String} {o : String}, o ∈ collectOptions cap els acc →
      o ∈ acc ∨ ∃ e, optionAccept e = true ∧ o = pyStrip e.text := by
  intro els
  induction els with
  | nil => intro acc o h; simp only [collectOptions] at h; exact Or.inl h
  | cons e rest ih =>
    intro acc o h
    simp only [collectOptions] at h
    by_cases ha : optionAccept e = true
    · rw [if_pos ha] at h
      by_cases hcap : cap ≤ (acc ++ [pyStrip e.text]).length
      · rw [if_pos hcap] at h
        rcases List.mem_append.mp h with h1 | h1
        · exact Or.inl h1
        · exact Or.inr ⟨e, ha, (List.mem_singleton.mp h1)⟩
      · rw [if_neg hcap] at h
        rcases ih h with h1 | h1
        · rcases List.mem_append.mp h1 with h2 | h2
          · exact Or.inl h2
          · exact Or.inr ⟨e, ha, (List.mem_singleton.mp h2)⟩
        · exact Or.inr h1
    · rw [Bool.not_eq_true] at ha
      rw [if_neg (by simp [ha])] at h
      exact ih h

theorem gatherOptions_mem {soup : Soup} {cap : Nat} {o : String}
    (h : o ∈ gatherOptions soup cap) :
    ∃ e, optionAccept e = true ∧ o = pyStrip e.text := by
  simp only [gatherOptions] at h
  split at h
  · rcases collectOptions_mem h with h1 | h1
    · simp at h1
    · exact h1
  · split at h
    · rcases collectOptions_mem h with h1 | h1
      · simp at h1
      · exact h1
    · split at h
      · rcases collectOptions_mem h with h1 | h1
        · simp at h1
        · exact h1
      · rcases collectOptions_mem h with h1 | h1
        · simp at h1
        · exact h1

theorem optionAccept_no_disamb {e : El} (h : optionAccept e = true) :
    strContains (pyLower (pyStrip e.text)) "disambiguation" = false := by
  simp only [optionAccept, Bool.and_eq_true, Bool.not_eq_true'] at h
  exact h.1.1.2

theorem uniqueOptions_no_disamb (soup : Soup) (n : Nat) :
    ∀ o ∈ uniqueOptions soup n, strContains (pyLower o) "disambiguation" = false := by
  intro o ho
  have hm : o ∈ gatherOptions soup (n * 2) := (uniqueOptions_sublist soup n).subset ho
  obtain ⟨e, hacc, rfl⟩ := gatherOptions_mem hm
  exact optionAccept_no_disamb hacc

theorem extract_disamb_eq_of_ne {soup : Soup} {query : String} {n : Nat}
    (h : uniqueOptions soup n ≠ []) :
    extract_disambiguation_content soup query n =
      joinLines (mayReferHeader query ::
        (uniqueOptions soup n).map (fun o => "• " ++ o) ++ ["", disambPrompt]) := by
  have h' : dedupCap n (gatherOptions soup (n * 2)) [] ≠ [] := h
  simp only [extract_disambiguation_content]
  rw [if_pos h']
  rfl

/-! ## Claim C8: bounded, deduplicated, disambiguation-free option lines -/

/-- C8: the option list emitted by `extract_disambiguation_content` equals the
first-seen deduplication of the gathered candidates capped at `n`; it
therefore has at most `n` entries, no duplicates, preserves candidate order
(it is a sublist of the gathered candidates), no emitted option label
contains the word "disambiguation" (case-insensitively), and when it is
non-empty the returned content is exactly the header, one bulleted line per
option, a blank line and the prompt. -/
theorem extract_disambiguation_content_bounded (soup : Soup) (query : String) (n : Nat) :
    uniqueOptions soup n = (firstSeen (gatherOptions soup (n * 2)) []).take n ∧
    (uniqueOptions soup n).length ≤ n ∧
    (uniqueOptions soup n).Nodup ∧
    List.Sublist (uniqueOptions soup n) (gatherOptions soup (n * 2)) ∧
    (∀ o ∈ uniqueOptions soup n, strContains (pyLower o) "disambiguation" = false) ∧
    (uniqueOptions soup n ≠ [] →
      extract_disambiguation_content soup query n =
        joinLines (mayReferHeader query ::
          (uniqueOptions soup n).map (fun o => "• " ++ o) ++ ["", disambPrompt])) :=
  ⟨uniqueOptions_eq_take soup n, uniqueOptions_length_le soup n,
   uniqueOptions_nodup soup n, uniqueOptions_sublist soup n,
   uniqueOptions_no_disamb soup n, fun h => extract_disamb_eq_of_ne h⟩

/-! ## Claim C5: disambiguation short-circuit of the direct fetch -/

/-- C5: when the direct fetch succeeds with status 200 and the page is
detected as a disambiguation page, `fetch_top_wikipedia_results` returns
immediately a single-element list whose document is the disambiguation
document: `is_disambiguation` is true, and its content lists one bulleted
line per extracted option (at most `n`, each option appearing exactly once by
`Nodup`). -/
theorem fetch_disambiguation_short_circuit (w : World) (query : String) (n sentences : Nat)
    (soup : Soup)
    (hget : w.httpGet 0 (directUrl (effectiveQuery query)) = .ok (200, soup))
    (hdis : detectDisambig soup = true) :
    fetch_top_wikipedia_results w query n sentences =
      .ok [⟨effectiveQuery query ++ " (Disambiguation)",
            extract_disambiguation_content soup (effectiveQuery query) n,
            directUrl (effectiveQuery query), true⟩] ∧
    (uniqueOptions soup n).Nodup ∧
    (uniqueOptions soup n).length ≤ n ∧
    (uniqueOptions soup n ≠ [] →
      extract_disambiguation_content soup (effectiveQuery query) n =
        joinLines (mayReferHeader (effectiveQuery query) ::
          (uniqueOptions soup n).map (fun o => "• " ++ o) ++ ["", disambPrompt])) := by
  refine ⟨?_, uniqueOptions_nodup soup n, uniqueOptions_length_le soup n,
    fun h => extract_disamb_eq_of_ne h⟩
  simp only [fetch_top_wikipedia_results, fetchWithCleaned]
  rw [hget]
  simp [hdis]

/-- C5 witness: the short-circuit theorem applied to the concrete
disambiguation world. -/
theorem fetch_disambiguation_short_circuit_witness :
    fetch_top_wikipedia_results worldCatDisamb "cat" 3 10 =
      .ok [⟨effectiveQuery "cat" ++ " (Disambiguation)",
            extract_disambiguation_content soupCatDisamb (effectiveQuery "cat") 3,
            directUrl (effectiveQuery "cat"), true⟩] :=
  (fetch_disambiguation_short_circuit worldCatDisamb "cat" 3 10 soupCatDisamb rfl
    (by decide)).1

/-! ## Claim C7: fallback tiers of `extract_manual_content` -/

theorem joinLines_cons_ne_empty {a : String} (l : List String) (ha : a ≠ "") :
    joinLines (a :: l) ≠ "" := by
  cases l with
  | nil => simpa [joinLines] using ha
  | cons b r =>
    intro hcontra
    have hlen := congrArg String.length hcontra
    have h1 : ("\n" : String).length = 1 := rfl
    have h0 : ("" : String).length = 0 := rfl
    have ha' : 0 < a.length := by
      rcases Nat.eq_zero_or_pos a.length with hz | hp
      · exact absurd (String.ext (List.length_eq_zero.mp hz)) ha
      · exact hp
    rw [joinLines, String.length_append, String.length_append, h1, h0] at hlen
    omega

/-- When no paragraph in the considered range is long enough and no heading
in it has non-blank text, the accumulation loop collects nothing. -/
theorem collectLines_nil {sentences : Nat} :
    ∀ {els : List El},
      (∀ e ∈ els,
        (e.name = "p" → ¬(pyStrip e.text ≠ "" ∧ 50 < (pyStrip e.text).length)) ∧
        (e.name ≠ "p" → pyStrip e.text = "")) →
      collectLines sentences els [] = [] := by
  intro els
  induction els with
  | nil => intro _; rfl
  | cons e rest ih =>
    intro h
    obtain ⟨hp, hh⟩ := h e (List.mem_cons_self _ _)
    have hacc : (if e.name = "p" then
        (let t := pyStrip e.text
         if t ≠ "" && decide (50 < t.length) then ([] : List String) ++ [t] else [])
      else if strStartsWith e.name "h" then
        (let t := pyStrip e.text
         if t ≠ "" then ([] : List String) ++ ["\n" ++ t ++ "\n"] else [])
      else []) = [] := by
      by_cases hep : e.name = "p"
      · have hno := hp hep
        simp only [if_pos hep]
        by_cases h1 : pyStrip e.text = ""
        · simp [h1]
        · have h2 : ¬(50 < (pyStrip e.text).length) := fun h2 => hno ⟨h1, h2⟩
          simp [h1, h2]
      · have := hh hep
        simp [if_neg hep, this]
    simp only [collectLines]
    rw [hacc]
    by_cases hs0 : sentences ≤ 0
    · simp only [List.length_nil, if_pos hs0]
    · simp only [List.length_nil, if_neg hs0]
      exact ih (fun x hx => h x (List.mem_cons_of_mem _ hx))

/-- C7 counterexample: on a container whose considered elements are a heading
with non-empty text and one short paragraph, no paragraph exceeds 50
characters, yet the extractor does not fall back to the first paragraph: it
returns the heading line instead, refuting the claim as stated. -/
theorem extract_manual_content_heading_cex :
    (∀ e ∈ [El.mk "h2" "History" "", El.mk "p" "ab" ""],
       e.name = "p" → ¬(50 < (pyStrip e.text).length)) ∧
    soupHeadingShort.contentDiv = some [El.mk "h2" "History" "", El.mk "p" "ab" ""] ∧
    List.find? (fun e => e.name = "p") [El.mk "h2" "History" "", El.mk "p" "ab" ""] =
      some (El.mk "p" "ab" "") ∧
    extract_manual_content soupHeadingShort 10 = "\nHistory\n" ∧
    "\nHistory\n" ≠ pyStrip (El.mk "p" "ab" "").text := by
  decide

/-- C7 amended: on a container in which no considered paragraph has trimmed
text longer than 50 characters and additionally no considered heading has
non-blank text (the heading condition is what the counterexample forces to be
added), the extractor falls back to the trimmed text of the first paragraph
found anywhere in the container; when the container has no paragraph at all
it falls back to the stripped non-blank visible-text lines of the whole
document sliced to `sentences`, and that fallback is non-empty exactly when a
non-blank visible line exists. -/
theorem extract_manual_content_fallbacks (soup : Soup) (div : List El) (sentences : Nat)
    (hdiv : soup.contentDiv = some div) (hs : 1 ≤ sentences)
    (hp : ∀ e ∈ takeLimit (sentences * 2) (div.filter isContentTag),
       e.name = "p" → ¬(pyStrip e.text ≠ "" ∧ 50 < (pyStrip e.text).length))
    (hh : ∀ e ∈ takeLimit (sentences * 2) (div.filter isContentTag),
       e.name ≠ "p" → pyStrip e.text = "") :
    (∀ fp, div.find? (fun e => e.name = "p") = some fp →
       extract_manual_content soup sentences = pyStrip fp.text) ∧
    (div.find? (fun e => e.name = "p") = none →
       extract_manual_content soup sentences =
         joinLines ((nonBlankLines (fun c => c = '\n') soup.text).take sentences) ∧
       (nonBlankLines (fun c => c = '\n') soup.text ≠ [] →
         extract_manual_content soup sentences ≠ "")) := by
  have hnil : collectLines sentences (takeLimit (sentences * 2) (div.filter isContentTag)) []
      = [] :=
    collectLines_nil (fun e he => ⟨hp e he, hh e he⟩)
  obtain ⟨k, rfl⟩ : ∃ k, sentences = k + 1 := ⟨sentences - 1, by omega⟩
  constructor
  · intro fp hfp
    simp only [extract_manual_content, hdiv, hnil, hfp, List.isEmpty_nil, if_pos,
      List.isEmpty_cons, Bool.false_eq_true, if_false, if_neg, List.take_succ_cons,
      List.take_nil, joinLines]
  · intro hfp
    have hres : extract_manual_content soup (k + 1) =
        joinLines ((nonBlankLines (fun c => c = '\n') soup.text).take (k + 1)) := by
      simp only [extract_manual_content, hdiv, hnil, hfp, List.isEmpty_nil, if_pos,
        List.take_take, Nat.min_self]
    refine ⟨hres, ?_⟩
    intro hne
    rcases hl : nonBlankLines (fun c => c = '\n') soup.text with _ | ⟨a, rest⟩
    · exact absurd hl hne
    · have ha : a ≠ "" := by
        have : a ∈ nonBlankLines (fun c => c = '\n') soup.text := by
          rw [hl]; exact List.mem_cons_self _ _
        simp only [nonBlankLines, List.mem_filter] at this
        simpa using this.2
      rw [hres, hl, List.take_succ_cons]
      exact joinLines_cons_ne_empty _ ha

/-- C7 witness: the fallback theorem applied to a container with one short
paragraph and no heading. -/
theorem extract_manual_content_fallbacks_witness :
    extract_manual_content soupShortPara 10 = pyStrip (El.mk "p" " short " "").text :=
  (extract_manual_content_fallbacks soupShortPara [El.mk "p" " short " ""] 10 rfl
    (by decide) (by decide) (by decide)).1 (El.mk "p" " short " "") (by decide)

/-! ## Substring lemmas -/

theorem charsStartWith_append_right {pat s : List Char} (t : List Char)
    (h : charsStartWith pat s = true) : charsStartWith pat (s ++ t) = true := by
  induction pat generalizing s with
  | nil => rfl
  | cons p ps ih =>
    cases s with
    | nil => simp [charsStartWith] at h
    | cons c cs =>
      simp only [charsStartWith, Bool.and_eq_true] at h ⊢
      exact ⟨h.1, ih h.2⟩

theorem charsStartWith_self_append : ∀ (p rest : List Char),
    charsStartWith p (p ++ rest) = true := by
  intro p
  induction p with
  | nil => intro rest; rfl
  | cons c cs ih =>
    intro rest
    simp only [List.cons_append, charsStartWith, Bool.and_eq_true]
    exact ⟨by simp, ih rest⟩

theorem charsContain_append_left {pat l1 : List Char} (l2 : List Char)
    (h : charsContain pat l1 = true) : charsContain pat (l1 ++ l2) = true := by
  induction l1 with
  | nil =>
    simp only [List.nil_append]
    cases pat with
    | nil =>
      cases l2 with
      | nil => exact h
      | cons c cs => simp [charsContain, charsStartWith]
    | cons p ps => simp [charsContain, charsStartWith] at h
  | cons c cs ih =>
    simp only [charsContain, Bool.or_eq_true] at h ⊢
    rcases h with h | h
    · exact Or.inl (by simpa using charsStartWith_append_right l2 h)
    · exact Or.inr (ih h)

theorem charsContain_append_right {pat : List Char} (l1 : List Char) {l2 : List Char}
    (h : charsContain pat l2 = true) : charsContain pat (l1 ++ l2) = true := by
  induction l1 with
  | nil => simpa using h
  | cons c cs ih =>
    simp only [List.cons_append, charsContain, Bool.or_eq_true]
    exact Or.inr ih

theorem strContains_append_left {s : String} (t : String) {pat : String}
    (h : strContains s pat = true) : strContains (s ++ t) pat = true := by
  simp only [strContains, String.data_append]
  exact charsContain_append_left t.data h

theorem strContains_append_right (s : String) {t pat : String}
    (h : strContains t pat = true) : strContains (s ++ t) pat = true := by
  simp only [strContains, String.data_append]
  exact charsContain_append_right s.data h

/-! ## Shared trace helpers -/

/-- When the HTTP client and the search API always raise,
`fetch_top_wikipedia_results` ends in the synthetic placeholder. -/
theorem fetch_of_all_fail (w : World) (query : String) (n sentences : Nat)
    (hg : ∀ c u, w.httpGet c u = .error ())
    (hs : ∀ c q k, w.wikiSearch c q k = .error ()) :
    fetch_top_wikipedia_results w query n sentences =
      .ok (get_fallback_content (effectiveQuery query)) := by
  simp only [fetch_top_wikipedia_results, fetchWithCleaned, hg, searchPhase, hs]

/-! ## Claim C6: the synthetic placeholder document -/

set_option maxRecDepth 4000 in
/-- C6 counterexample: with the cleaned query "C#" and every network call
failing, the placeholder URL is built by underscore-substitution only, with no
percent-encoding, so it differs from the direct-page address (which encodes
the hash sign), refuting the claim that the placeholder URL is the
percent-encoded direct-page address. -/
theorem fetch_fallback_url_not_encoded_cex :
    fetch_top_wikipedia_results worldAllFail "C#" 3 10 =
      .ok [⟨"C#", fallback_text "C#", "https://en.wikipedia.org/wiki/C#", false⟩] ∧
    "https://en.wikipedia.org/wiki/C#" ≠ directUrl (effectiveQuery "C#") ∧
    directUrl (effectiveQuery "C#") = "https://en.wikipedia.org/wiki/C%23" := by
  decide

/-- C6 amended: when every resolution strategy fails (the HTTP client and the
search API always raise), `fetch_top_wikipedia_results` returns exactly one
synthetic placeholder document whose content contains the literal substring
"currently unavailable" and whose `source_url` is built from the cleaned
query by underscore-substitution only (the source applies no percent-encoding
on this path, unlike the direct-page address). -/
theorem fetch_all_fail_placeholder (w : World) (query : String) (n sentences : Nat)
    (hg : ∀ c u, w.httpGet c u = .error ())
    (hs : ∀ c q k, w.wikiSearch c q k = .error ()) :
    fetch_top_wikipedia_results w query n sentences =
      .ok [⟨effectiveQuery query, fallback_text (effectiveQuery query),
            "https://en.wikipedia.org/wiki/" ++ underscoreSpaces (effectiveQuery query),
            false⟩] ∧
    strContains (fallback_text (effectiveQuery query)) "currently unavailable" = true := by
  refine ⟨fetch_of_all_fail w query n sentences hg hs, ?_⟩
  unfold fallback_text
  apply strContains_append_left
  apply strContains_append_left
  apply strContains_append_left
  apply strContains_append_left
  apply strContains_append_left
  apply strContains_append_right
  decide

/-- C6 witness: the placeholder theorem applied to the all-failing world. -/
theorem fetch_all_fail_placeholder_witness :
    fetch_top_wikipedia_results worldAllFail "moon landing" 3 10 =
      .ok [⟨effectiveQuery "moon landing", fallback_text (effectiveQuery "moon landing"),
            "https://en.wikipedia.org/wiki/" ++ underscoreSpaces (effectiveQuery "moon landing"),
            false⟩] ∧
    strContains (fallback_text (effectiveQuery "moon landing")) "currently unavailable"
      = true :=
  fetch_all_fail_placeholder worldAllFail "moon landing" 3 10
    (fun _ _ => rfl) (fun _ _ _ => rfl)

/-! ## Claim C9: the default-topic substitution -/

/-- C9 counterexample: a whitespace-only query is replaced by the default
topic "artillery", but when the direct page for "artillery" is served as a
disambiguation page the single returned element has `is_disambiguation =
true`, refuting the claim that the element always has `is_disambiguation =
false`. -/
theorem fetch_default_topic_cex :
    (["none", "null", ""].contains (pyLower (pyStrip "  "))) = true ∧
    fetch_top_wikipedia_results worldCatDisamb "  " 3 10 =
      .ok [⟨"artillery (Disambiguation)",
            extract_disambiguation_content soupCatDisamb "artillery" 3,
            directUrl "artillery", true⟩] ∧
    (RefDoc.mk "artillery (Disambiguation)"
      (extract_disambiguation_content soupCatDisamb "artillery" 3)
      (directUrl "artillery") true).is_disambiguation = true := by
  decide

/-- C9 amended: a query that is empty, whitespace-only, or "none"/"null"
(case-insensitively after trimming) is replaced by the fixed default topic
"artillery", so the call behaves exactly as a call with query "artillery";
in particular whenever every network call fails the returned list is exactly
one placeholder element whose `source_url` ends with "/wiki/artillery" and
whose `is_disambiguation` is false.  (The unconditional shape claimed for the
result holds only under such a condition on the collaborators: see the
counterexample, where the same query yields a disambiguation element.) -/
theorem fetch_default_topic (w : World) (query : String) (n sentences : Nat)
    (hq : ["none", "null", ""].contains (pyLower (pyStrip query)) = true) :
    fetch_top_wikipedia_results w query n sentences =
      fetch_top_wikipedia_results w "artillery" n sentences ∧
    ((∀ c u, w.httpGet c u = .error ()) → (∀ c q k, w.wikiSearch c q k = .error ()) →
      ∃ d, fetch_top_wikipedia_results w query n sentences = .ok [d] ∧
        d.is_disambiguation = false ∧
        strEndsWith d.source_url "/wiki/artillery" = true) := by
  have he : effectiveQuery query = "artillery" := by
    unfold effectiveQuery
    rw [if_pos hq]
    decide
  have ha : effectiveQuery "artillery" = "artillery" := by decide
  constructor
  · simp only [fetch_top_wikipedia_results]
    rw [he, ha]
  · intro hg hs
    refine ⟨⟨"artillery", fallback_text "artillery",
      "https://en.wikipedia.org/wiki/" ++ underscoreSpaces "artillery", false⟩, ?_, rfl, ?_⟩
    · rw [fetch_of_all_fail w query n sentences hg hs, he]
      rfl
    · decide

/-- C9 witness: the substitution equivalence at the whitespace-only query. -/
theorem fetch_default_topic_witness :
    fetch_top_wikipedia_results worldAllFail "  " 3 10 =
      fetch_top_wikipedia_results worldAllFail "artillery" 3 10 :=
  (fetch_default_topic worldAllFail "  " 3 10 (by decide)).1

/-! ## Claims C1 and C2: result shape of every trace -/

/-- `manual_extract_from_url` never succeeds with an empty document list. -/
theorem manual_extract_ne_nil {w : World} {c : Nat} {url q : String} {s : Nat}
    {docs : List RefDoc} (h : manual_extract_from_url w c url q s = some docs) :
    docs ≠ [] := by
  unfold manual_extract_from_url at h
  cases hg : w.httpGet c url with
  | error e => rw [hg] at h; simp at h
  | ok p =>
    rw [hg] at h
    obtain ⟨st, soup⟩ := p
    by_cases h200 : st = 200
    · simp only [if_pos h200, Option.some.injEq] at h
      rw [← h]
      simp
    · simp [if_neg h200] at h

/-- The search phase always returns `.ok`, and its list can only be empty
when the search API returned a non-empty candidate list. -/
theorem searchPhase_ok (w : World) (c : Nat) (cq du : String) (n sentences : Nat) :
    ∃ l, searchPhase w c cq du n sentences = .ok l ∧
      (l = [] → ∃ res, w.wikiSearch c cq (n * 2) = .ok res ∧ res ≠ []) := by
  unfold searchPhase
  cases hws : w.wikiSearch c cq (n * 2) with
  | error e =>
    exact ⟨get_fallback_content cq, rfl, fun h => by simp [get_fallback_content] at h⟩
  | ok search_results =>
    dsimp only
    by_cases he : search_results.isEmpty
    · rw [if_pos he]
      cases hm : manual_extract_from_url w (c + 1) du cq sentences with
      | none =>
        exact ⟨get_fallback_content cq, rfl, fun h => by simp [get_fallback_content] at h⟩
      | some docs =>
        exact ⟨docs, rfl, fun h => absurd h (manual_extract_ne_nil hm)⟩
    · rw [if_neg he]
      refine ⟨_, rfl, ?_⟩
      intro _
      exact ⟨search_results, rfl, by simpa [List.isEmpty_iff] using he⟩

/-- Every trace of the pipeline body returns `.ok`, and the returned list can
only be empty when some search call returned a non-empty candidate list (from
which every candidate was then filtered out or failed). -/
theorem fetchWithCleaned_ok (w : World) (cq : String) (n sentences : Nat) :
    ∃ l, fetchWithCleaned w cq n sentences = .ok l ∧
      (l = [] → ∃ c res, w.wikiSearch c cq (n * 2) = .ok res ∧ res ≠ []) := by
  simp only [fetchWithCleaned]
  cases hg : w.httpGet 0 (directUrl cq) with
  | error e =>
    obtain ⟨l, h1, h2⟩ := searchPhase_ok w 1 cq (directUrl cq) n sentences
    exact ⟨l, h1, fun h => ⟨1, h2 h⟩⟩
  | ok p =>
    obtain ⟨st, soup⟩ := p
    dsimp only
    by_cases h200 : st = 200
    · rw [if_pos h200]
      by_cases hd : detectDisambig soup = true
      · rw [if_pos hd]
        exact ⟨_, rfl, fun h => by simp at h⟩
      · rw [if_neg hd]
        cases hp : w.wikiPage 1 (underscoreSpaces cq) true with
        | ok page =>
          dsimp only
          cases hsum : w.wikiSummary 2 page.title sentences with
          | ok summary => dsimp only; exact ⟨_, rfl, fun h => by simp at h⟩
          | error e =>
            cases e with
            | disamb options => dsimp only; exact ⟨_, rfl, fun h => by simp at h⟩
            | page => dsimp only; exact ⟨_, rfl, fun h => by simp at h⟩
            | other =>
              dsimp only
              obtain ⟨l, h1, h2⟩ := searchPhase_ok w 3 cq (directUrl cq) n sentences
              exact ⟨l, h1, fun h => ⟨3, h2 h⟩⟩
        | error e =>
          cases e with
          | disamb options => dsimp only; exact ⟨_, rfl, fun h => by simp at h⟩
          | page => dsimp only; exact ⟨_, rfl, fun h => by simp at h⟩
          | other =>
            dsimp only
            obtain ⟨l, h1, h2⟩ := searchPhase_ok w 2 cq (directUrl cq) n sentences
            exact ⟨l, h1, fun h => ⟨2, h2 h⟩⟩
    · rw [if_neg h200]
      obtain ⟨l, h1, h2⟩ := searchPhase_ok w 1 cq (directUrl cq) n sentences
      exact ⟨l, h1, fun h => ⟨1, h2 h⟩⟩

/-- C2: for every query and every behaviour of the collaborators,
`fetch_top_wikipedia_results` returns an `.ok` value: no exception raised by
a collaborator escapes to the caller; every failure is absorbed by a handler
of the trace. -/
theorem fetch_never_raises (w : World) (query : String) (n sentences : Nat) :
    ∃ l, fetch_top_wikipedia_results w query n sentences = .ok l :=
  let ⟨l, h1, _⟩ := fetchWithCleaned_ok w (effectiveQuery query) n sentences
  ⟨l, h1⟩

/-- C1 counterexample: when the direct fetch raises and the search API
returns the single candidate "x (disambiguation)", the candidate is filtered
out and `fetch_top_wikipedia_results` returns the empty list, refuting the
claim that the result is always non-empty. -/
theorem fetch_empty_list_cex :
    fetch_top_wikipedia_results worldFilteredSearch "cat" 3 10 = .ok [] := by
  decide

/-- C1 amended: `fetch_top_wikipedia_results` always returns a list, and the
list is non-empty unless the search tier succeeded with a non-empty candidate
list from which every candidate of the first `n` was filtered out as a
"(disambiguation)" title or failed; in particular the list is non-empty
whenever the direct fetch resolves, the search call raises, or the search
call returns no candidates (including when every network call fails). -/
theorem fetch_nonempty_unless_filtered (w : World) (query : String) (n sentences : Nat) :
    ∃ l, fetch_top_wikipedia_results w query n sentences = .ok l ∧
      (l = [] →
        ∃ c res, w.wikiSearch c (effectiveQuery query) (n * 2) = .ok res ∧ res ≠ []) :=
  fetchWithCleaned_ok w (effectiveQuery query) n sentences

/-! ## Claim C10: determinism with respect to oracle responses -/

/-- C10: with the collaborators modelled as pure oracles,
`fetch_top_wikipedia_results` is deterministic: any two worlds whose oracles
give pointwise equal responses produce identical result lists for every
query, `n` and sentence limit — the pipeline reads no state other than its
arguments and the oracle responses, and uses no randomness. -/
theorem fetch_deterministic (w1 w2 : World)
    (hg : ∀ c u, w1.httpGet c u = w2.httpGet c u)
    (hp : ∀ c t b, w1.wikiPage c t b = w2.wikiPage c t b)
    (hsum : ∀ c t k, w1.wikiSummary c t k = w2.wikiSummary c t k)
    (hs : ∀ c q k, w1.wikiSearch c q k = w2.wikiSearch c q k)
    (query : String) (n sentences : Nat) :
    fetch_top_wikipedia_results w1 query n sentences =
      fetch_top_wikipedia_results w2 query n sentences := by
  have hw : w1 = w2 := by
    cases w1 with
    | mk g1 p1 m1 s1 =>
      cases w2 with
      | mk g2 p2 m2 s2 =>
        congr 1
        · funext c u; exact hg c u
        · funext c t b; exact hp c t b
        · funext c t k; exact hsum c t k
        · funext c q k; exact hs c q k
  rw [hw]

/-- C10 witness: the determinism theorem applied to two syntactically
different worlds with the same responses. -/
theorem fetch_deterministic_witness :
    fetch_top_wikipedia_results worldAllFail "a" 1 1 =
      fetch_top_wikipedia_results worldAllFailTwin "a" 1 1 :=
  fetch_deterministic worldAllFail worldAllFailTwin (fun _ _ => rfl) (fun _ _ _ => rfl)
    (fun _ _ _ => rfl) (fun _ _ _ => rfl) "a" 1 1

/-! ## Claim C3: content and URL invariants of returned documents -/

/-- C3 counterexample: a 200 response whose parsed body is structurally empty
together with a `PageError` from the page API drives the pipeline into manual
extraction, which returns a document whose content is the empty string,
refuting the claimed invariant that every returned document has non-empty
content. -/
theorem fetch_empty_content_cex :
    fetch_top_wikipedia_results worldEmptyManual "cat" 3 10 =
      .ok [⟨"cat", "", directUrl "cat", false⟩] := by
  decide

theorem append_ne_empty_left {a : String} (b : String) (ha : a ≠ "") : a ++ b ≠ "" := by
  intro h
  have hd : a.data ++ b.data = ([] : List Char) := by
    have h2 := congrArg String.data h
    rw [String.data_append] at h2
    exact h2
  exact ha (String.ext (List.append_eq_nil.mp hd).1)

theorem fallback_text_ne_empty (q : String) : fallback_text q ≠ "" := by
  unfold fallback_text
  apply append_ne_empty_left
  apply append_ne_empty_left
  apply append_ne_empty_left
  apply append_ne_empty_left
  apply append_ne_empty_left
  apply append_ne_empty_left
  apply append_ne_empty_left
  decide

theorem mayReferHeader_ne_empty (q : String) : mayReferHeader q ≠ "" := by
  unfold mayReferHeader
  apply append_ne_empty_left
  apply append_ne_empty_left
  decide

theorem create_simple_disambiguation_content_ne_empty (q : String) (options : List String) :
    create_simple_disambiguation_content q options ≠ "" := by
  unfold create_simple_disambiguation_content
  exact joinLines_cons_ne_empty _ (mayReferHeader_ne_empty q)

theorem isAbsoluteUrl_wiki (x : String) :
    isAbsoluteUrl ("https://en.wikipedia.org/wiki/" ++ x) = true := by
  have hsplit : ("https://en.wikipedia.org/wiki/" ++ x).data =
      "https://".data ++ ("en.wikipedia.org/wiki/".data ++ x.data) := by
    rw [String.data_append]
    have hlit : ("https://en.wikipedia.org/wiki/" : String).data =
        "https://".data ++ "en.wikipedia.org/wiki/".data := by decide
    rw [hlit, List.append_assoc]
  unfold isAbsoluteUrl strStartsWith
  rw [hsplit, charsStartWith_self_append]
  simp

theorem isAbsoluteUrl_directUrl (q : String) : isAbsoluteUrl (directUrl q) = true := by
  unfold directUrl
  exact isAbsoluteUrl_wiki _

theorem searchDisambDoc_props (cq res : String) (options : List String) :
    (searchDisambDoc cq res options).content ≠ "" ∧
    isAbsoluteUrl (searchDisambDoc cq res options).source_url = true :=
  ⟨create_simple_disambiguation_content_ne_empty cq (options.take 8),
   isAbsoluteUrl_wiki (underscoreSpaces res)⟩

theorem fallback_doc_props (q : String) :
    ∀ d ∈ get_fallback_content q, d.content ≠ "" ∧ isAbsoluteUrl d.source_url = true := by
  intro d hd
  rcases List.mem_singleton.mp hd with rfl
  exact ⟨fallback_text_ne_empty q, isAbsoluteUrl_wiki (underscoreSpaces q)⟩

/-- Invariant of the candidate loop: under a summary oracle that never
returns an empty summary and a page oracle that only returns absolute URLs,
every document it accumulates has non-empty content and an absolute URL. -/
theorem searchLoop_docs (w : World) (cq : String) (sentences : Nat)
    (hsum : ∀ c t k str, w.wikiSummary c t k = .ok str → str ≠ "")
    (hpage : ∀ c t b page, w.wikiPage c t b = .ok page → isAbsoluteUrl page.url = true) :
    ∀ (cands : List String) (c : Nat) (acc : List RefDoc),
      (∀ d ∈ acc, d.content ≠ "" ∧ isAbsoluteUrl d.source_url = true) →
      ∀ d ∈ searchLoop w cq sentences c cands acc,
        d.content ≠ "" ∧ isAbsoluteUrl d.source_url = true := by
  intro cands
  induction cands with
  | nil => intro c acc hacc d hd; exact hacc d hd
  | cons res rest ih =>
    intro c acc hacc d hd
    simp only [searchLoop] at hd
    cases hpg : w.wikiPage c res false with
    | ok page =>
      rw [hpg] at hd
      dsimp only at hd
      cases hsm : w.wikiSummary (c + 1) page.title sentences with
      | ok summary =>
        rw [hsm] at hd
        dsimp only at hd
        refine ih (c + 2) _ ?_ d hd
        intro d' hd'
        rcases List.mem_append.mp hd' with h | h
        · exact hacc d' h
        · rcases List.mem_singleton.mp h with rfl
          exact ⟨hsum _ _ _ _ hsm, hpage _ _ _ _ hpg⟩
      | error e =>
        rw [hsm] at hd
        cases e with
        | disamb options =>
          dsimp only at hd
          refine ih (c + 2) _ ?_ d hd
          intro d' hd'
          rcases List.mem_append.mp hd' with h | h
          · exact hacc d' h
          · rcases List.mem_singleton.mp h with rfl
            exact searchDisambDoc_props cq res options
        | page => exact ih (c + 2) acc hacc d hd
        | other => exact ih (c + 2) acc hacc d hd
    | error e =>
      rw [hpg] at hd
      cases e with
      | disamb options =>
        dsimp only at hd
        refine ih (c + 1) _ ?_ d hd
        intro d' hd'
        rcases List.mem_append.mp hd' with h | h
        · exact hacc d' h
        · rcases List.mem_singleton.mp h with rfl
          exact searchDisambDoc_props cq res options
      | page => exact ih (c + 1) acc hacc d hd
      | other => exact ih (c + 1) acc hacc d hd

/-- Invariant of the search phase under the same oracle conditions, with the
manual-extraction condition added for the manual pass. -/
theorem searchPhase_docs (w : World) (c : Nat) (cq du : String) (n sentences : Nat)
    (hsum : ∀ c' t k str, w.wikiSummary c' t k = .ok str → str ≠ "")
    (hpage : ∀ c' t b page, w.wikiPage c' t b = .ok page → isAbsoluteUrl page.url = true)
    (hman : ∀ c' u st soup, w.httpGet c' u = .ok (st, soup) →
       extract_manual_content soup sentences ≠ "")
    (hdu : isAbsoluteUrl du = true) :
    ∀ l, searchPhase w c cq du n sentences = .ok l →
      ∀ d ∈ l, d.content ≠ "" ∧ isAbsoluteUrl d.source_url = true := by
  intro l hl d hd
  unfold searchPhase at hl
  cases hws : w.wikiSearch c cq (n * 2) with
  | error e =>
    rw [hws] at hl
    cases Except.ok.inj hl
    exact fallback_doc_props cq d hd
  | ok rs =>
    rw [hws] at hl
    dsimp only at hl
    by_cases he : rs.isEmpty
    · rw [if_pos he] at hl
      cases hm : manual_extract_from_url w (c + 1) du cq sentences with
      | none =>
        rw [hm] at hl
        cases Except.ok.inj hl
        exact fallback_doc_props cq d hd
      | some docs =>
        rw [hm] at hl
        cases Except.ok.inj hl
        unfold manual_extract_from_url at hm
        cases hg2 : w.httpGet (c + 1) du with
        | error e => rw [hg2] at hm; simp at hm
        | ok p =>
          rw [hg2] at hm
          obtain ⟨st, soup⟩ := p
          by_cases h200 : st = 200
          · simp only [if_pos h200, Option.some.injEq] at hm
            rw [← hm] at hd
            rcases List.mem_singleton.mp hd with rfl
            exact ⟨hman _ _ _ _ hg2, hdu⟩
          · simp [if_neg h200] at hm
    · rw [if_neg he] at hl
      cases Except.ok.inj hl
      exact searchLoop_docs w cq sentences hsum hpage _ (c + 1) [] (by simp) d hd

/-- C3 amended: every document returned by `fetch_top_wikipedia_results` has
non-empty content and an absolute (http/https-schemed) `source_url`, provided
the page API only returns absolute URLs, the summary API never returns an
empty summary, and manual/disambiguation extraction of any page the HTTP
client serves yields non-empty text.  Without those provisos the invariant is
refuted by the counterexample (manual extraction of a structurally empty page
returns a document with empty content; the resolved-path URL and content are
whatever the page/summary API supplies). -/
theorem fetch_documents_invariant (w : World) (query : String) (n sentences : Nat)
    (hsum : ∀ c t k str, w.wikiSummary c t k = .ok str → str ≠ "")
    (hpage : ∀ c t b page, w.wikiPage c t b = .ok page → isAbsoluteUrl page.url = true)
    (hman : ∀ c u st soup, w.httpGet c u = .ok (st, soup) →
       extract_manual_content soup sentences ≠ "")
    (hdis : ∀ c u st soup, w.httpGet c u = .ok (st, soup) →
       extract_disambiguation_content soup (effectiveQuery query) n ≠ "") :
    ∀ l, fetch_top_wikipedia_results w query n sentences = .ok l →
      ∀ d ∈ l, d.content ≠ "" ∧ isAbsoluteUrl d.source_url = true := by
  intro l hl d hd
  simp only [fetch_top_wikipedia_results, fetchWithCleaned] at hl
  cases hg : w.httpGet 0 (directUrl (effectiveQuery query)) with
  | error e =>
    rw [hg] at hl
    exact searchPhase_docs w 1 (effectiveQuery query) (directUrl (effectiveQuery query))
      n sentences hsum hpage hman (isAbsoluteUrl_directUrl _) l hl d hd
  | ok p =>
    rw [hg] at hl
    obtain ⟨st, soup⟩ := p
    dsimp only at hl
    by_cases h200 : st = 200
    · rw [if_pos h200] at hl
      by_cases hdt : detectDisambig soup = true
      · rw [if_pos hdt] at hl
        cases Except.ok.inj hl
        rcases List.mem_singleton.mp hd with rfl
        exact ⟨hdis _ _ _ _ hg, isAbsoluteUrl_directUrl _⟩
      · rw [if_neg hdt] at hl
        cases hpg : w.wikiPage 1 (underscoreSpaces (effectiveQuery query)) true with
        | ok page =>
          rw [hpg] at hl
          dsimp only at hl
          cases hsm : w.wikiSummary 2 page.title sentences with
          | ok summary =>
            rw [hsm] at hl
            cases Except.ok.inj hl
            rcases List.mem_singleton.mp hd with rfl
            exact ⟨hsum _ _ _ _ hsm, hpage _ _ _ _ hpg⟩
          | error e =>
            rw [hsm] at hl
            cases e with
            | disamb options =>
              cases Except.ok.inj hl
              rcases List.mem_singleton.mp hd with rfl
              exact ⟨hman _ _ _ _ hg, isAbsoluteUrl_directUrl _⟩
            | page =>
              cases Except.ok.inj hl
              rcases List.mem_singleton.mp hd with rfl
              exact ⟨hman _ _ _ _ hg, isAbsoluteUrl_directUrl _⟩
            | other =>
              exact searchPhase_docs w 3 (effectiveQuery query)
                (directUrl (effectiveQuery query)) n sentences hsum hpage hman
                (isAbsoluteUrl_directUrl _) l hl d hd
        | error e =>
          rw [hpg] at hl
          cases e with
          | disamb options =>
            cases Except.ok.inj hl
            rcases List.mem_singleton.mp hd with rfl
            exact ⟨hman _ _ _ _ hg, isAbsoluteUrl_directUrl _⟩
          | page =>
            cases Except.ok.inj hl
            rcases List.mem_singleton.mp hd with rfl
            exact ⟨hman _ _ _ _ hg, isAbsoluteUrl_directUrl _⟩
          | other =>
            exact searchPhase_docs w 2 (effectiveQuery query)
              (directUrl (effectiveQuery query)) n sentences hsum hpage hman
              (isAbsoluteUrl_directUrl _) l hl d hd
    · rw [if_neg h200] at hl
      exact searchPhase_docs w 1 (effectiveQuery query) (directUrl (effectiveQuery query))
        n sentences hsum hpage hman (isAbsoluteUrl_directUrl _) l hl d hd

set_option maxRecDepth 8000 in
/-- C3 witness: the invariant theorem applied to the all-failing world (its
oracle hypotheses hold vacuously), evaluated at the placeholder document the
call returns. -/
theorem fetch_documents_invariant_witness :
    (RefDoc.mk "cat" (fallback_text "cat")
      ("https://en.wikipedia.org/wiki/" ++ underscoreSpaces "cat") false).content ≠ "" ∧
    isAbsoluteUrl (RefDoc.mk "cat" (fallback_text "cat")
      ("https://en.wikipedia.org/wiki/" ++ underscoreSpaces "cat") false).source_url = true :=
  fetch_documents_invariant worldAllFail "cat" 3 10
    (fun _ _ _ _ h => by simp [worldAllFail] at h)
    (fun _ _ _ _ h => by simp [worldAllFail] at h)
    (fun _ _ _ _ h => by simp [worldAllFail] at h)
    (fun _ _ _ _ h => by simp [worldAllFail] at h)
    (get_fallback_content "cat") (by decide)
    (RefDoc.mk "cat" (fallback_text "cat")
      ("https://en.wikipedia.org/wiki/" ++ underscoreSpaces "cat") false) (by decide)

end Ragbase
